import Mathlib

/-!
Verification of the wallet-custody / transaction-dispatch core of the
KATZ-AI-Agent "skin" repository, as a shallow embedding in Lean 4.

The embedding covers:
* `src/utils/encryption.js`  — the `encrypt` / `decrypt` pair (CryptoJS
  AES in CBC mode with PKCS7 padding, OpenSSL-style salted format);
* `src/services/wallet/index.js` — `WalletService.createWallet`,
  `getWallet`, `cacheWallet`, `getFromCache`;
* `src/services/queue/TransactionQueue.js` — `_initQueues`,
  `addTransaction`, `_updateTransactionStatus`, `getQueueStatus`,
  `getPendingTransactions`;
* `src/services/wallet/wallets/solana.js` — `setupRpcConnection`,
  `startHealthChecks`, `setupWebSocket`, `heartbeat`,
  `reconnectWebSocket`.

JavaScript strings holding secret material are modelled as byte lists
(`List Nat`); promises are modelled by explicit state passing, with the
outcome of external I/O (RPC probes, the queued task body) supplied as an
explicit parameter; exceptions are modelled with `Except String`.
-/

namespace Skin

/-! ### Cipher — src/utils/encryption.js

`CryptoJS.AES.encrypt(text, passphrase)` derives a key and IV from the
passphrase and a random salt (EVP_BytesToKey), PKCS7-pads the UTF-8 bytes
of `text`, and encrypts the padded blocks in CBC mode; `.toString()`
serialises salt and ciphertext (OpenSSL `Salted__` format, base64).
`CryptoJS.AES.decrypt` reverses this.  Crucially, CryptoJS Pkcs7 `unpad`
does NOT validate the padding: it reads the last byte `n` of the
decrypted data and drops `n` bytes (clamping to empty when `n` exceeds
the length), and the UTF-8 stringifier then throws only when the
remaining bytes are not valid UTF-8.

The AES block permutation and the key-derivation are modelled abstractly
by a `CipherCore` (salt-indexed block cipher plus salt-derived IV);
everything else — CBC chaining, PKCS7 padding, the non-validating unpad,
UTF-8 validation, and the null/falsy handling of the repository wrapper —
is modelled concretely.  Plaintexts are byte lists. -/

/-- One byte list XORed into another, pointwise (truncating to the
shorter operand, as CryptoJS word-array XOR over fixed blocks). -/
def xorB (a b : List Nat) : List Nat := List.zipWith Nat.xor a b

/-- PKCS7 padding to 16-byte blocks: append `n` copies of `n` where
`n = 16 - len % 16` (always between 1 and 16). -/
def pkcs7pad (t : List Nat) : List Nat :=
  t ++ List.replicate (16 - t.length % 16) (16 - t.length % 16)

/-- CryptoJS `Pkcs7.unpad`: read the last byte `n` and drop the final
`n` bytes, with NO validation that the dropped bytes actually are a
well-formed pad.  When `n` exceeds the length the result clamps to
empty (in CryptoJS, `sigBytes` goes non-positive and stringifies to
the empty string). -/
def cryptojsUnpad (bs : List Nat) : List Nat :=
  match bs.getLast? with
  | none => bs
  | some n => bs.take (bs.length - n)

/-- Split a byte list into 16-byte chunks (last chunk possibly short
when the length is not a multiple of 16). -/
def chunk16 (l : List Nat) : List (List Nat) :=
  if l = [] then [] else l.take 16 :: chunk16 (l.drop 16)
termination_by l.length
decreasing_by
  simp only [List.length_drop]
  rename_i h
  have : l.length ≠ 0 := fun hz => h (List.length_eq_zero.mp hz)
  omega

/-- CBC-mode encryption of a block sequence: each plaintext block is
XORed with the previous ciphertext block (initially the IV) before the
block cipher is applied. -/
def cbcEnc (E : List Nat → List Nat) : List Nat → List (List Nat) → List (List Nat)
  | _, [] => []
  | iv, p :: ps =>
    let c := E (xorB iv p)
    c :: cbcEnc E c ps

/-- CBC-mode decryption: invert the block cipher, then XOR with the
previous ciphertext block (initially the IV). -/
def cbcDec (D : List Nat → List Nat) : List Nat → List (List Nat) → List (List Nat)
  | _, [] => []
  | iv, c :: cs => xorB iv (D c) :: cbcDec D c cs

/-- Abstract core of `CryptoJS.AES` with a fixed passphrase: the salt
determines (via EVP_BytesToKey) the AES key and IV; `encBlock s` /
`decBlock s` are the AES block permutation and its inverse under the key
derived from salt `s`, and `deriveIV s` is the derived 16-byte IV. -/
structure CipherCore where
  deriveIV : List Nat → List Nat
  encBlock : List Nat → List Nat → List Nat
  decBlock : List Nat → List Nat → List Nat

/-- A `CipherCore` is well-formed when the block maps are mutually
inverse, block-length preserving, and the derived IV is one block. -/
def CipherCore.WF (cc : CipherCore) : Prop :=
  (∀ s b, cc.decBlock s (cc.encBlock s b) = b) ∧
  (∀ s b, (cc.encBlock s b).length = b.length) ∧
  (∀ s, (cc.deriveIV s).length = 16)

/-- The degenerate core whose block maps are the identity; used to
instantiate generic theorems at concrete, computable inputs. -/
def idCore : CipherCore :=
  { deriveIV := fun _ => List.replicate 16 0
    encBlock := fun _ b => b
    decBlock := fun _ b => b }

theorem idCore_wf : idCore.WF :=
  ⟨fun _ _ => rfl, fun _ _ => rfl, fun _ => by simp [idCore]⟩

/-- Serialized ciphertext as produced by
`CryptoJS.AES.encrypt(..).toString()`: the OpenSSL format carries the
salt together with the CBC ciphertext blocks (base64 serialisation is a
bijection and is elided). -/
structure Ct where
  salt : List Nat
  body : List (List Nat)
deriving DecidableEq, Repr

/-- Byte-level UTF-8 validity (RFC 3629 table).  Models the fact that
`CryptoJS.enc.Utf8.stringify` throws ("Malformed UTF-8 data") exactly
when the decrypted bytes are not valid UTF-8. -/
def utf8Cont (b : Nat) : Bool := 0x80 ≤ b && b ≤ 0xBF

def validUtf8 : List Nat → Bool
  | [] => true
  | b :: rest =>
    if b ≤ 0x7F then validUtf8 rest
    else if 0xC2 ≤ b && b ≤ 0xDF then
      match rest with
      | c1 :: r => utf8Cont c1 && validUtf8 r
      | [] => false
    else if b = 0xE0 then
      match rest with
      | c1 :: c2 :: r => (0xA0 ≤ c1 && c1 ≤ 0xBF) && utf8Cont c2 && validUtf8 r
      | _ => false
    else if (0xE1 ≤ b && b ≤ 0xEC) || b = 0xEE || b = 0xEF then
      match rest with
      | c1 :: c2 :: r => utf8Cont c1 && utf8Cont c2 && validUtf8 r
      | _ => false
    else if b = 0xED then
      match rest with
      | c1 :: c2 :: r => (0x80 ≤ c1 && c1 ≤ 0x9F) && utf8Cont c2 && validUtf8 r
      | _ => false
    else if b = 0xF0 then
      match rest with
      | c1 :: c2 :: c3 :: r =>
        (0x90 ≤ c1 && c1 ≤ 0xBF) && utf8Cont c2 && utf8Cont c3 && validUtf8 r
      | _ => false
    else if 0xF1 ≤ b && b ≤ 0xF3 then
      match rest with
      | c1 :: c2 :: c3 :: r => utf8Cont c1 && utf8Cont c2 && utf8Cont c3 && validUtf8 r
      | _ => false
    else if b = 0xF4 then
      match rest with
      | c1 :: c2 :: c3 :: r =>
        (0x80 ≤ c1 && c1 ≤ 0x8F) && utf8Cont c2 && utf8Cont c3 && validUtf8 r
      | _ => false
    else false

/-- Model of `encrypt` from src/utils/encryption.js.  `hasKey` models whether
`config.mongoEncryptionKey` is set; `salt` is the random salt CryptoJS
draws for this call (made explicit, as encryption is randomised);
the plaintext is `Option` because the wrapper passes `null` through, and
the falsy test `if (!text) return null` also sends the EMPTY string to
`null`. -/
def encryptM (hasKey : Bool) (cc : CipherCore) (salt : List Nat)
    (text : Option (List Nat)) : Except String (Option Ct) :=
  if hasKey = false then .error "Encryption key not configured"
  else
    match text with
    | none => .ok none
    | some t =>
      if t = [] then .ok none
      else
        .ok (some { salt := salt
                    body := cbcEnc (cc.encBlock salt) (cc.deriveIV salt)
                              (chunk16 (pkcs7pad t)) })

/-- Model of `decrypt` from src/utils/encryption.js.  The falsy test sends a
`null` ciphertext to `null`; otherwise CBC-decrypt, apply the
non-validating CryptoJS unpad, and stringify — the catch block maps a
malformed-UTF-8 throw to the wrapper error "Failed to decrypt data".
Note there is NO integrity check: any well-formed byte string decrypts
to SOMETHING, and the result is an error only when that something is
not valid UTF-8. -/
def decryptM (hasKey : Bool) (cc : CipherCore) (c : Option Ct) :
    Except String (Option (List Nat)) :=
  if hasKey = false then .error "Encryption key not configured"
  else
    match c with
    | none => .ok none
    | some ct =>
      let bytes := (cbcDec (cc.decBlock ct.salt) (cc.deriveIV ct.salt) ct.body).flatten
      let un := cryptojsUnpad bytes
      if validUtf8 un then .ok (some un) else .error "Failed to decrypt data"

/-- The composite studied by the spec: encrypt, then immediately
decrypt (the happy path of the custody round-trip). -/
def roundtripM (hasKey : Bool) (cc : CipherCore) (salt : List Nat)
    (text : Option (List Nat)) : Except String (Option (List Nat)) :=
  (encryptM hasKey cc salt text).bind (decryptM hasKey cc)

/-! ### Cipher lemmas -/

theorem xorB_length (a b : List Nat) : (xorB a b).length = min a.length b.length := by
  simp [xorB]

theorem xorB_cancel : ∀ (a b : List Nat), b.length ≤ a.length →
    xorB a (xorB a b) = b := by
  intro a
  induction a with
  | nil =>
    intro b hb
    simp at hb
    subst hb
    simp [xorB]
  | cons x xs ih =>
    intro b hb
    cases b with
    | nil => simp [xorB]
    | cons y ys =>
      simp only [xorB, List.zipWith_cons_cons]
      have hx : Nat.xor x (Nat.xor x y) = y := by
        change x ^^^ (x ^^^ y) = y
        rw [← Nat.xor_assoc, Nat.xor_self, Nat.zero_xor]
      simp only [List.length_cons, Nat.succ_le_succ_iff] at hb
      simpa [hx] using ih ys hb

theorem cbcDec_cbcEnc (E D : List Nat → List Nat)
    (hED : ∀ b, D (E b) = b) (hElen : ∀ b, (E b).length = b.length) :
    ∀ (ps : List (List Nat)) (iv : List Nat), iv.length = 16 →
    (∀ p ∈ ps, p.length = 16) →
    cbcDec D iv (cbcEnc E iv ps) = ps := by
  intro ps
  induction ps with
  | nil => intro iv _ _; rfl
  | cons p ps ih =>
    intro iv hiv hall
    have hp : p.length = 16 := hall p (List.mem_cons_self p ps)
    have hxor : (xorB iv p).length = 16 := by
      rw [xorB_length, hiv, hp]; simp
    simp only [cbcEnc, cbcDec, hED]
    rw [xorB_cancel iv p (by omega)]
    rw [ih (E (xorB iv p)) (by rw [hElen, hxor])
        (fun q hq => hall q (List.mem_cons_of_mem p hq))]

theorem chunk16_flatten : ∀ (l : List Nat), (chunk16 l).flatten = l := by
  have aux : ∀ (n : Nat) (l : List Nat), l.length ≤ n → (chunk16 l).flatten = l := by
    intro n
    induction n with
    | zero =>
      intro l hl
      have : l = [] := List.length_eq_zero.mp (Nat.le_zero.mp hl)
      rw [this, chunk16]
      simp
    | succ n ih =>
      intro l hl
      by_cases h : l = []
      · rw [h, chunk16]; simp
      · rw [chunk16]
        simp only [h, if_false, List.flatten_cons]
        rw [ih (l.drop 16) (by
          simp only [List.length_drop]
          have : l.length ≠ 0 := fun hz => h (List.length_eq_zero.mp hz)
          omega)]
        exact List.take_append_drop 16 l
  exact fun l => aux l.length l (Nat.le_refl _)

theorem chunk16_blocks : ∀ (l : List Nat), l.length % 16 = 0 →
    ∀ c ∈ chunk16 l, c.length = 16 := by
  have aux : ∀ (n : Nat) (l : List Nat), l.length ≤ n → l.length % 16 = 0 →
      ∀ c ∈ chunk16 l, c.length = 16 := by
    intro n
    induction n with
    | zero =>
      intro l hl _ c hc
      have : l = [] := List.length_eq_zero.mp (Nat.le_zero.mp hl)
      rw [this, chunk16] at hc
      simp at hc
    | succ n ih =>
      intro l hl hmod c hc
      by_cases h : l = []
      · rw [h, chunk16] at hc; simp at hc
      · rw [chunk16] at hc
        simp only [h, if_false, List.mem_cons] at hc
        have hlen : l.length ≠ 0 := fun hz => h (List.length_eq_zero.mp hz)
        have h16 : 16 ≤ l.length := by omega
        rcases hc with hc | hc
        · rw [hc, List.length_take]; omega
        · exact ih (l.drop 16) (by simp only [List.length_drop]; omega)
            (by simp only [List.length_drop]; omega) c hc
  exact fun l hmod => aux l.length l (Nat.le_refl _) hmod

theorem pkcs7pad_mod (t : List Nat) : (pkcs7pad t).length % 16 = 0 := by
  simp only [pkcs7pad, List.length_append, List.length_replicate]
  omega

theorem getLast?_replicate_ne (n a : Nat) (h : n ≠ 0) :
    (List.replicate n a).getLast? = some a := by
  induction n with
  | zero => omega
  | succ m ih =>
    by_cases hm : m = 0
    · subst hm; rfl
    · rw [List.replicate_succ]
      rw [List.getLast?_cons]
      rw [ih hm]
      simp

theorem cryptojsUnpad_pkcs7pad (t : List Nat) : cryptojsUnpad (pkcs7pad t) = t := by
  have hp : 16 - t.length % 16 ≠ 0 := by omega
  have hlast : (pkcs7pad t).getLast? = some (16 - t.length % 16) := by
    simp only [pkcs7pad]
    rw [List.getLast?_append_of_ne_nil]
    · exact getLast?_replicate_ne _ _ hp
    · simp only [ne_eq, List.replicate_eq_nil_iff]
      omega
  simp only [cryptojsUnpad, hlast]
  simp only [pkcs7pad, List.length_append, List.length_replicate]
  have : t.length + (16 - t.length % 16) - (16 - t.length % 16) = t.length := by omega
  rw [this]
  rw [List.take_left']
  rfl

/-- Decryption inverts encryption on any non-empty plaintext that is
valid UTF-8 (every plaintext the service encrypts is the UTF-8 encoding
of a JS string, so this hypothesis always holds in the source). -/
theorem decryptM_encryptM (cc : CipherCore) (hwf : cc.WF) (salt : List Nat)
    (t : List Nat) (hne : t ≠ []) (hutf : validUtf8 t = true) :
    roundtripM true cc salt (some t) = .ok (some t) := by
  obtain ⟨hED, hElen, hIV⟩ := hwf
  have hbody : cbcDec (cc.decBlock salt) (cc.deriveIV salt)
      (cbcEnc (cc.encBlock salt) (cc.deriveIV salt) (chunk16 (pkcs7pad t))) =
      chunk16 (pkcs7pad t) :=
    cbcDec_cbcEnc _ _ (hED salt) (hElen salt) _ _ (hIV salt)
      (chunk16_blocks _ (pkcs7pad_mod t))
  simp [roundtripM, encryptM, decryptM, hne, Except.bind, hbody,
    chunk16_flatten, cryptojsUnpad_pkcs7pad, hutf]

/-! ### WalletService — src/services/wallet/index.js

State: the `users` collection (keyed by `telegramId`, each user holding
`wallets`, a JS object mapping network name to an array of encrypted
wallet records, iterated in insertion order by `Object.entries`), the
`walletMetrics` collection, the in-memory `walletCache` JS `Map`, and
the set of registered provider networks (`walletProviders`).

MongoDB `updateOne` with `$push`/`upsert` and the in-memory structures
are modelled by association lists preserving insertion order.  Database
and provider I/O are assumed to succeed (their failure modes are not at
issue in the claims); the wallet returned by `provider.createWallet()`
is an explicit parameter, as it is derived from fresh randomness. -/

/-- A persisted (encrypted) wallet record, as pushed by `createWallet`.
`wType` models the optional `type` property read by `getWallet`
(`wallet.type || 'internal'`). -/
structure StoredWallet where
  address : String
  encryptedPrivateKey : Option Ct
  encryptedMnemonic : Option Ct
  wType : Option String
  createdAt : Nat
deriving DecidableEq, Repr

/-- A user document: `wallets` is the network-name-keyed object of
wallet arrays, in `Object.entries` (insertion) order. -/
structure UserRec where
  wallets : List (String × List StoredWallet)
deriving DecidableEq, Repr

/-- The decrypted wallet value returned by `getWallet` (and, for a
fresh wallet, the plaintext object returned by `provider.createWallet()`
extended with its network).  `privateKey`/`mnemonic` are `Option`
because `decrypt` passes `null` through. -/
structure DecryptedWallet where
  address : String
  privateKey : Option (List Nat)
  mnemonic : Option (List Nat)
  network : String
  wType : String
  createdAt : Nat
deriving DecidableEq, Repr

/-- An entry of the `walletCache` map.  `cacheWallet` stores the wallet
under the property `data`; `getWallet` reads the property `wallet`,
which `cacheWallet` never writes (it is `undefined`, i.e. `none`, on
every entry the service itself creates, but the model allows arbitrary
entries). -/
structure CacheEntry where
  data : Option DecryptedWallet
  wallet : Option DecryptedWallet
  timestamp : Nat
deriving DecidableEq, Repr

/-- Model of `this.CACHE_DURATION`: read by `getWallet` and `getFromCache` but
never assigned anywhere on `WalletService`, hence `undefined`. -/
def CACHE_DURATION : Option Nat := none

/-- JS `<` against a possibly-`undefined` right operand: comparison
with `undefined` coerces to `NaN` and is `false`. -/
def jsLt (x : Nat) (y : Option Nat) : Bool :=
  match y with
  | none => false
  | some n => decide (x < n)

/-- The state of `WalletService` together with its backing collections. -/
structure WalletState where
  users : List (String × UserRec)
  walletMetrics : List (String × Nat)
  walletCache : List (String × CacheEntry)
  walletProviders : List String
deriving DecidableEq, Repr

/-- JS `Map.set` / Mongo in-place update on an association list:
replace the value at the key, keeping its position, or append. -/
def mapSet {α : Type} (m : List (String × α)) (k : String) (v : α) :
    List (String × α) :=
  match m with
  | [] => [(k, v)]
  | (k', v') :: rest => if k' = k then (k, v) :: rest else (k', v') :: mapSet rest k v

/-- Model of `$push` into `wallets.<network>` on one user document: append the
record to the network's array, creating the array (as a new last
property) when absent. -/
def pushWalletNet (ws : List (String × List StoredWallet)) (network : String)
    (rec : StoredWallet) : List (String × List StoredWallet) :=
  match ws with
  | [] => [(network, [rec])]
  | (n, l) :: rest =>
    if n = network then (n, l ++ [rec]) :: rest
    else (n, l) :: pushWalletNet rest network rec

/-- Model of `updateOne({telegramId}, {$push: ...}, {upsert: true})`: update the
matching user document in place, or insert a fresh one. -/
def upsertPush (users : List (String × UserRec)) (uid network : String)
    (rec : StoredWallet) : List (String × UserRec) :=
  match users with
  | [] => [(uid, ⟨[(network, [rec])]⟩)]
  | (id, u) :: rest =>
    if id = uid then (id, ⟨pushWalletNet u.wallets network rec⟩) :: rest
    else (id, u) :: upsertPush rest uid network rec

/-- Model of `cacheWallet(userId, address, walletData)`: key `` `${userId}-${address}` ``,
value `{ data: walletData, timestamp: Date.now() }`. -/
def cacheWalletF (st : WalletState) (uid addr : String)
    (w : DecryptedWallet) (now : Nat) : WalletState :=
  let entry : CacheEntry := ⟨some w, none, now⟩
  let key : String := uid ++ "-" ++ addr
  { st with walletCache := mapSet st.walletCache key entry }

/-- Model of `getFromCache(userId, address)`: key `` `${userId}-${address}` ``,
returns the `data` property when the TTL test passes (it never does,
`CACHE_DURATION` being undefined); a stale hit is deleted. -/
def getFromCacheF (st : WalletState) (uid addr : String) (now : Nat) :
    Option DecryptedWallet :=
  match List.lookup (uid ++ "-" ++ addr) st.walletCache with
  | some cached => if jsLt (now - cached.timestamp) CACHE_DURATION then cached.data else none
  | none => none

/-- The search loop of `getWallet`: scan the user's networks in
`Object.entries` order and return the first record whose `address`
matches, together with its network. -/
def findWalletIn (address : String) :
    List (String × List StoredWallet) → Option (String × StoredWallet)
  | [] => none
  | (net, ws) :: rest =>
    match ws.find? (fun w => w.address = address) with
    | some w => some (net, w)
    | none => findWalletIn address rest

/-- The events `WalletService` emits. -/
inductive WEvent
  | walletCreated (userId network address : String)
  | metricsUpdated (network : String)
  | walletDeleted (userId network address : String)
deriving DecidableEq, Repr

/-- Model of `getWallet(userId, address)`: consult the cache under key
`` `${userId}:${address}` `` (note the colon — `cacheWallet` writes a
dash) with the undefined `CACHE_DURATION`; on miss, `User.findOne` —
throwing `'User not found'` when there is no such user — then scan the
networks, decrypt the first matching record (a decryption error becomes
`'Failed to decrypt wallet data'`), repopulate the cache via
`cacheWallet`, and return; `null` when no address matches. -/
def getWalletM (hasKey : Bool) (cc : CipherCore) (st : WalletState)
    (now : Nat) (uid addr : String) :
    Except String (Option DecryptedWallet) × WalletState :=
  let cacheKey := uid ++ ":" ++ addr
  let cached := List.lookup cacheKey st.walletCache
  match cached with
  | some entry =>
    if jsLt (now - entry.timestamp) CACHE_DURATION then (.ok entry.wallet, st)
    else getWalletFetch hasKey cc st now uid addr
  | none => getWalletFetch hasKey cc st now uid addr
where
  /-- The body after the cache check: user lookup, network scan,
  decryption, cache repopulation. -/
  getWalletFetch (hasKey : Bool) (cc : CipherCore) (st : WalletState)
      (now : Nat) (uid addr : String) :
      Except String (Option DecryptedWallet) × WalletState :=
    match List.lookup uid st.users with
    | none => (.error "User not found", st)
    | some user =>
      match findWalletIn addr user.wallets with
      | none => (.ok none, st)
      | some (network, w) =>
        match decryptM hasKey cc w.encryptedPrivateKey,
              decryptM hasKey cc w.encryptedMnemonic with
        | .ok pk, .ok mn =>
          let dw : DecryptedWallet :=
            { address := w.address
              privateKey := pk
              mnemonic := mn
              network := network
              wType := w.wType.getD "internal"
              createdAt := w.createdAt }
          (.ok (some dw), cacheWalletF st uid addr dw now)
        | _, _ => (.error "Failed to decrypt wallet data", st)

/-- The plaintext wallet produced by `provider.createWallet()`. -/
structure ProviderWallet where
  address : String
  privateKey : List Nat
  mnemonic : List Nat
deriving DecidableEq, Repr

/-- Model of `incrementWalletTally(network)`: `$inc: {walletCount: 1}` with
upsert, then a `metricsUpdated` event. -/
def incrementWalletTally (st : WalletState) (network : String) :
    WalletState × List WEvent :=
  let count := (List.lookup network st.walletMetrics).getD 0
  ({ st with walletMetrics := mapSet st.walletMetrics network (count + 1) },
   [.metricsUpdated network])

/-- Model of `createWallet(userId, network)`: resolve the provider (throwing
`Unsupported network` when none is registered), generate a wallet via
the provider, encrypt the secret fields, `$push` the encrypted record
onto the user document (upserting the user), bump the per-network
wallet tally, populate the cache with the plaintext wallet, emit
`walletCreated`, and return the plaintext wallet. -/
def createWalletM (hasKey : Bool) (cc : CipherCore) (st : WalletState)
    (salt1 salt2 : List Nat) (now : Nat) (uid network : String)
    (pw : ProviderWallet) :
    Except String ProviderWallet × WalletState × List WEvent :=
  if network ∈ st.walletProviders then
    match encryptM hasKey cc salt1 (some pw.privateKey),
          encryptM hasKey cc salt2 (some pw.mnemonic) with
    | .ok encPk, .ok encMn =>
      let rec0 : StoredWallet :=
        { address := pw.address
          encryptedPrivateKey := encPk
          encryptedMnemonic := encMn
          wType := none
          createdAt := now }
      let st1 := { st with users := upsertPush st.users uid network rec0 }
      let (st2, evs) := incrementWalletTally st1 network
      let dw : DecryptedWallet :=
        { address := pw.address
          privateKey := some pw.privateKey
          mnemonic := some pw.mnemonic
          network := network
          wType := "internal"
          createdAt := now }
      let st3 := cacheWalletF st2 uid pw.address dw now
      (.ok pw, st3, evs ++ [.walletCreated uid network pw.address])
    | .error e, _ => (.error e, st, [])
    | _, .error e => (.error e, st, [])
  else (.error ("Unsupported network: " ++ network), st, [])

/-! ### TransactionQueue — src/services/queue/TransactionQueue.js

One `PQueue` per network (`p-queue` admission control: at most
`concurrency` tasks running, at most `intervalCap` task starts per
`interval` milliseconds), a `pendingTransactions` JS `Map` keyed by
transaction id, and a `gasPrices` JS `Map`.  `p-queue` is modelled as
its configuration plus observable counters (`pending` = running tasks,
`size` = queued tasks), with task admission as a small-step transition
relation. -/

/-- Configuration and observable counters of one `p-queue` instance. -/
structure PQConfig where
  concurrency : Nat
  interval : Nat
  intervalCap : Nat
  pending : Nat
  size : Nat
deriving DecidableEq, Repr

/-- Model of `NETWORK_INTERVALS` of `_initQueues`. -/
def NETWORK_INTERVALS : List (String × Nat) := [("solana", 500), ("default", 1000)]

/-- Model of `NETWORK_INTERVALS[network] || NETWORK_INTERVALS.default`. -/
def networkInterval (network : String) : Nat :=
  match List.lookup network NETWORK_INTERVALS with
  | some v => v
  | none => (List.lookup "default" NETWORK_INTERVALS).getD 0

/-- Model of `_initQueues`: a fresh queue per supported network, each with
`concurrency: 1`, the network-specific `interval`, and `intervalCap: 1`. -/
def initQueues : List (String × PQConfig) :=
  ["ethereum", "base", "solana"].map fun network =>
    (network,
     { concurrency := 1
       interval := networkInterval network
       intervalCap := 1
       pending := 0
       size := 0 })

/-- Snapshot of one `p-queue`: tasks currently running and tasks
queued but not yet started. -/
structure PQRun where
  running : Nat
  queued : Nat
deriving DecidableEq, Repr

/-- Admission-control semantics of `p-queue`: `.add` enqueues a task; a
queued task may start only while fewer than `concurrency` tasks are
running (the interval gate can only delay starts further, so it is
unconstrained here); a running task may finish. -/
inductive PQStep (concurrency : Nat) : PQRun → PQRun → Prop
  | enqueue (s : PQRun) : PQStep concurrency s { s with queued := s.queued + 1 }
  | start (s : PQRun) (h : s.running < concurrency) (hq : 0 < s.queued) :
      PQStep concurrency s { running := s.running + 1, queued := s.queued - 1 }
  | finish (s : PQRun) (h : 0 < s.running) :
      PQStep concurrency s { s with running := s.running - 1 }

/-- States reachable from the freshly constructed queue (nothing
running, nothing queued). -/
inductive PQReachable (concurrency : Nat) : PQRun → Prop
  | init : PQReachable concurrency ⟨0, 0⟩
  | step {s t : PQRun} : PQReachable concurrency s → PQStep concurrency s t →
      PQReachable concurrency t

/-- A transaction as submitted to `addTransaction`.  `validateTransaction`
tests `!tx.id || !tx.type || !tx.network || !tx.userId`, so the empty
string (JS falsy) fails validation. -/
structure TxIn where
  id : String
  txType : String
  network : String
  userId : String
  priority : Nat
deriving DecidableEq, Repr

/-- An entry of the `pendingTransactions` map. -/
structure TxRecord where
  id : String
  txType : String
  network : String
  userId : String
  priority : Nat
  status : String
  result : Option String
  errorMsg : Option String
  addedAt : Nat
  completedAt : Option Nat
deriving DecidableEq, Repr

/-- Events emitted by `TransactionQueue`. -/
inductive QEvent
  | transactionComplete (id : String)
  | transactionFailed (id : String)
  | queuePaused (network : String)
  | queueResumed (network : String)
deriving DecidableEq, Repr

/-- The gas-price value stored by `updateGasPrices`: either the
`{price, formatted, source}` object returned by `getGasPrice`, or the
string `'unavailable'` written when the provider call failed. -/
inductive GasPriceVal
  | obj (price formatted source : String)
  | unavailable
deriving DecidableEq, Repr

/-- An entry of the `gasPrices` map. -/
structure GasEntry where
  price : GasPriceVal
  timestamp : Nat
deriving DecidableEq, Repr

/-- State of `TransactionQueue`. -/
structure QueueState where
  queues : List (String × PQConfig)
  pendingTransactions : List (String × TxRecord)
  gasPrices : List (String × GasEntry)
deriving DecidableEq, Repr

/-- Model of `validateTransaction(tx)`: required fields truthy and the network
registered. -/
def validateTransaction (st : QueueState) (tx : TxIn) : Except String Unit :=
  if tx.id = "" || tx.txType = "" || tx.network = "" || tx.userId = "" then
    .error "❌ Invalid transaction format"
  else if (List.lookup tx.network st.queues).isNone then
    .error ("❌ Unsupported network: " ++ tx.network)
  else .ok ()

/-- Model of `_updateTransactionStatus(id, status, result, error)`: rewrite the
record in place with the new status, result, error and a `completedAt`
timestamp; a no-op when the id is not in the map. -/
def updateTransactionStatus (pend : List (String × TxRecord)) (id status : String)
    (result : Option String) (errorMsg : Option String) (now : Nat) :
    List (String × TxRecord) :=
  match List.lookup id pend with
  | none => pend
  | some t =>
    mapSet pend id
      { t with status := status, result := result, errorMsg := errorMsg,
               completedAt := some now }

/-- Model of `addTransaction(tx)`: validate, record the transaction as
`pending`, hand the submission work to the network's queue, and — in
the `try/catch` that wraps the whole method — settle the record to
`complete` (with result, emitting `transactionComplete`) or `failed`
(with the error message, emitting `transactionFailed`), rethrowing the
error.  The outcome of the queued `processTransaction` work is the
explicit parameter `run`; `now`/`fin` are the timestamps at admission
and settlement. -/
def addTransactionM (st : QueueState) (tx : TxIn)
    (run : Except String String) (now fin : Nat) :
    Except String String × QueueState × List QEvent :=
  match validateTransaction st tx with
  | .error e =>
    -- the catch block: the record was never created, so
    -- `_updateTransactionStatus` is a no-op unless an older transaction
    -- reused the id; the failure event is still emitted.
    (.error e,
     { st with pendingTransactions :=
         updateTransactionStatus st.pendingTransactions tx.id "failed" none (some e) fin },
     [.transactionFailed tx.id])
  | .ok _ =>
    let rec0 : TxRecord :=
      { id := tx.id, txType := tx.txType, network := tx.network,
        userId := tx.userId, priority := tx.priority, status := "pending",
        result := none, errorMsg := none, addedAt := now, completedAt := none }
    let pend1 := mapSet st.pendingTransactions tx.id rec0
    match run with
    | .ok result =>
      (.ok result,
       { st with pendingTransactions :=
           updateTransactionStatus pend1 tx.id "complete" (some result) none fin },
       [.transactionComplete tx.id])
    | .error e =>
      (.error e,
       { st with pendingTransactions :=
           updateTransactionStatus pend1 tx.id "failed" none (some e) fin },
       [.transactionFailed tx.id])

/-- Model of `getPendingTransactions(userId)`: the map's values filtered to this
user's still-`pending` records. -/
def getPendingTransactions (st : QueueState) (userId : String) : List TxRecord :=
  (st.pendingTransactions.map Prod.snd).filter
    (fun tx => tx.userId = userId && tx.status = "pending")

/-- The record returned by `getQueueStatus`. -/
structure QueueStatus where
  pending : Nat
  size : Nat
  gasPrice : GasPriceVal
deriving DecidableEq, Repr

/-- Model of `getQueueStatus(network)`: optional chaining plus `|| 0` /
`|| 'unavailable'` fallbacks, total over arbitrary network strings. -/
def getQueueStatus (st : QueueState) (network : String) : QueueStatus :=
  { pending :=
      match List.lookup network st.queues with
      | some q => q.pending
      | none => 0
    size :=
      match List.lookup network st.queues with
      | some q => q.size
      | none => 0
    gasPrice :=
      match List.lookup network st.gasPrices with
      | some e => e.price
      | none => .unavailable }

/-! ### SolanaWallet connection resilience —
src/services/wallet/wallets/solana.js

`setupRpcConnection` walks the endpoint list (primary then fallback)
issuing a `getVersion` probe through `rpcRequest` (axios with
`timeout: TIMEOUT_CONFIG.initial`), adopts the first endpoint that
answers into `state.rpcEndpoint` — the endpoint every later
`rpcRequest` call (`getBalance`, `getTokenBalance`, `getSlot`,
`getGasPrice`, `sendTransaction`) passes — and throws only after every
endpoint failed.  The probe outcome per endpoint is the explicit
function parameter `probe`.

`startHealthChecks` installs a 30-minute interval whose body calls
`this.connection.rpcRequest('getHealth')`; `this.connection` is set to
`null` in the constructor and never assigned, so the body always lands
in the `catch` and re-runs `setupRpcConnection`.  Both the
`response.error` branch and the `catch` branch re-run the probe.

The WebSocket session is a timer/handler state machine: `on('open')`
stores the socket, sets `wsReady`, and calls `heartbeat()`, which
replaces any pending ping timer with a **single** `setTimeout` of
60 000 ms; the timer body pings when the socket is open (measuring
latency via a one-shot `pong` listener) and merely warns otherwise, and
never re-arms itself.  `on('close')` calls `reconnectWebSocket`, a
5 000 ms `setTimeout` of the full `setupWebSocket`. -/

def TIMEOUT_CONFIG_initial : Nat := 5000

def RPC_ENDPOINTS_primary : List String :=
  ["https://lingering-red-liquid.solana-mainnet.quiknode.pro/a2a21741d8c9370d63a0789ab9eb93f926e11764"]

def RPC_ENDPOINTS_fallback : List String :=
  ["https://solana-mainnet-fallback.example.com"]

/-- Model of `[...RPC_ENDPOINTS.primary, ...RPC_ENDPOINTS.fallback]`. -/
def rpcEndpointList : List String := RPC_ENDPOINTS_primary ++ RPC_ENDPOINTS_fallback

/-- The `for...of` loop of `setupRpcConnection` over an endpoint list:
return the first endpoint whose `getVersion` probe succeeds, or throw
once the loop exhausts the list.  `probe e` is the outcome of
`rpcRequest(e, 'getVersion', [])` under its 5000 ms timeout. -/
def probeEndpoints (probe : String → Except String Unit) :
    List String → Except String String
  | [] => .error "❌ All RPC connections failed."
  | e :: rest =>
    match probe e with
    | .ok _ => .ok e
    | .error _ => probeEndpoints probe rest

/-- Connection-relevant state of `SolanaWallet`.  `connection` is
`null` from the constructor on. -/
structure SolState where
  connection : Option Unit
  rpcEndpoint : Option String
deriving DecidableEq, Repr

/-- Model of `setupRpcConnection()` acting on the service state: on success the
chosen endpoint is stored in `state.rpcEndpoint`; on failure the error
propagates and the state is unchanged. -/
def setupRpcConnectionM (st : SolState) (probe : String → Except String Unit) :
    Except String Unit × SolState :=
  match probeEndpoints probe rpcEndpointList with
  | .ok e => (.ok (), { st with rpcEndpoint := some e })
  | .error m => (.error m, st)

/-- The endpoint argument every subsequent RPC call passes to
`rpcRequest` (`this.state.rpcEndpoint`). -/
def rpcCallTarget (st : SolState) : Option String := st.rpcEndpoint

/-- One tick of the `startHealthChecks` interval.  `health` is the
outcome of `this.connection.rpcRequest('getHealth')` when a connection
object exists; with `connection = null` the member access itself throws
(`TypeError`), which the `catch` turns into a re-probe.  A
`response.error` answer likewise re-probes. -/
def healthCheckTick (st : SolState) (probe : String → Except String Unit)
    (health : Except String Unit) : SolState :=
  match st.connection with
  | none => (setupRpcConnectionM st probe).2
  | some _ =>
    match health with
    | .ok _ => st
    | .error _ => (setupRpcConnectionM st probe).2

/-- Model of `ws.readyState` of the `ws` package; `WebSocket.OPEN = 1`. -/
def WS_OPEN : Nat := 1

/-- A WebSocket handle, reduced to its `readyState`. -/
structure WsHandle where
  readyState : Nat
deriving DecidableEq, Repr

/-- Observable actions of the WebSocket session machinery. -/
inductive WsAction
  | pingSent
  | heartbeatSkipped
  | setupRerun
deriving DecidableEq, Repr

/-- WebSocket-session state of `SolanaWallet`: the stored socket, the
ready flag, the pending one-shot heartbeat `setTimeout` (its delay, ms)
and the pending reconnect `setTimeout`. -/
structure WsState where
  webSocket : Option WsHandle
  wsReady : Bool
  pingTimer : Option Nat
  reconnectTimer : Option Nat
deriving DecidableEq, Repr

/-- The state after the constructor: no socket, not ready, no timers. -/
def wsInit : WsState :=
  { webSocket := none, wsReady := false, pingTimer := none, reconnectTimer := none }

/-- Model of `heartbeat()`: clear any pending ping timer and arm a single
`setTimeout` of 60 000 ms.  (It is `setTimeout`, not `setInterval`:
the callback runs once.) -/
def heartbeatArm (st : WsState) : WsState :=
  { st with pingTimer := some 60000 }

/-- The `open` handler of `setupWebSocket`: store the socket, set
`wsReady`, start the heartbeat, resolve. -/
def wsOnOpen (st : WsState) (ws : WsHandle) : WsState :=
  heartbeatArm { st with webSocket := some ws, wsReady := true }

/-- The heartbeat `setTimeout` callback firing: the one-shot timer is
consumed; if the stored socket is currently open a ping is sent (with a
one-shot `pong` listener measuring the round-trip), otherwise the
callback only warns and returns — it never throws, and in neither case
does it arm another timer. -/
def heartbeatFire (st : WsState) : WsState × List WsAction :=
  let st' := { st with pingTimer := none }
  match st.webSocket with
  | some ws =>
    if ws.readyState = WS_OPEN then (st', [.pingSent])
    else (st', [.heartbeatSkipped])
  | none => (st', [.heartbeatSkipped])

/-- The `close` handler: `reconnectWebSocket()`, i.e. a 5 000 ms
`setTimeout` of `setupWebSocket`. -/
def wsOnClose (st : WsState) : WsState :=
  { st with reconnectTimer := some 5000 }

/-- The reconnect `setTimeout` callback firing: the full
`setupWebSocket` is re-run (a fresh socket whose `open` handler will
re-run `wsOnOpen`). -/
def reconnectFire (st : WsState) : WsState × List WsAction :=
  ({ st with reconnectTimer := none }, [.setupRerun])

/-! ### Helper lemmas -/

theorem lookup_mapSet_self {α : Type} (m : List (String × α)) (k : String) (v : α) :
    List.lookup k (mapSet m k v) = some v := by
  induction m with
  | nil => simp [mapSet, List.lookup]
  | cons p rest ih =>
    obtain ⟨k', v'⟩ := p
    by_cases h : k' = k
    · subst h
      simp [mapSet, List.lookup]
    · have hbe : (k == k') = false := beq_eq_false_iff_ne.mpr fun he => h he.symm
      simp only [mapSet, if_neg h, List.lookup, hbe]
      exact ih

theorem lookup_some_mem {α : Type} {m : List (String × α)} {k : String} {v : α}
    (h : List.lookup k m = some v) : (k, v) ∈ m := by
  induction m with
  | nil => simp [List.lookup] at h
  | cons p rest ih =>
    obtain ⟨k', v'⟩ := p
    by_cases hk : k = k'
    · subst hk
      simp [List.lookup] at h
      simp [h]
    · have hbe : (k == k') = false := beq_eq_false_iff_ne.mpr hk
      simp only [List.lookup, hbe] at h
      exact List.mem_cons_of_mem _ (ih h)

theorem find?_append_none {α : Type} {p : α → Bool} (l1 l2 : List α)
    (h : l1.find? p = none) : (l1 ++ l2).find? p = l2.find? p := by
  induction l1 with
  | nil => simp
  | cons x xs ih =>
    simp only [List.find?_cons] at h ⊢
    cases hx : p x with
    | true => rw [hx] at h; simp at h
    | false =>
      rw [hx] at h
      simp only [List.cons_append, List.find?_cons, hx]
      exact ih h

theorem findWalletIn_push (ws : List (String × List StoredWallet))
    (network addr : String) (rec0 : StoredWallet)
    (hrec : rec0.address = addr)
    (hnot : ∀ p ∈ ws, ∀ w ∈ p.2, w.address ≠ addr) :
    findWalletIn addr (pushWalletNet ws network rec0) = some (network, rec0) := by
  induction ws with
  | nil => simp [pushWalletNet, findWalletIn, List.find?, hrec]
  | cons p rest ih =>
    obtain ⟨n, l⟩ := p
    have hl : l.find? (fun w => w.address = addr) = none := by
      rw [List.find?_eq_none]
      intro w hw
      simpa using hnot (n, l) (List.mem_cons_self _ _) w hw
    by_cases hn : n = network
    · subst hn
      simp only [pushWalletNet, if_pos rfl, findWalletIn]
      rw [find?_append_none _ _ hl]
      simp [List.find?, hrec]
    · simp only [pushWalletNet, if_neg hn, findWalletIn, hl]
      exact ih fun q hq => hnot q (List.mem_cons_of_mem _ hq)

/-- The wallets object of the user `uid` currently holds (empty when the
user document does not exist yet). -/
def priorWallets (users : List (String × UserRec)) (uid : String) :
    List (String × List StoredWallet) :=
  match List.lookup uid users with
  | some u => u.wallets
  | none => []

theorem lookup_upsertPush (users : List (String × UserRec))
    (uid network : String) (rec0 : StoredWallet) :
    List.lookup uid (upsertPush users uid network rec0) =
      some ⟨pushWalletNet (priorWallets users uid) network rec0⟩ := by
  induction users with
  | nil => simp [upsertPush, List.lookup, priorWallets, pushWalletNet]
  | cons p rest ih =>
    obtain ⟨id, u⟩ := p
    by_cases h : id = uid
    · subst h
      simp [upsertPush, List.lookup, priorWallets]
    · have hbe : (uid == id) = false := beq_eq_false_iff_ne.mpr fun he => h he.symm
      simp only [upsertPush, if_neg h, List.lookup, hbe]
      rw [ih]
      simp only [priorWallets, List.lookup, hbe]

/-- The cache-consultation branch of `getWallet` never produces a
result: `CACHE_DURATION` is undefined, so the TTL comparison is always
false and control always falls through to the database fetch. -/
theorem getWalletM_eq_fetch (hasKey : Bool) (cc : CipherCore) (st : WalletState)
    (now : Nat) (uid addr : String) :
    getWalletM hasKey cc st now uid addr =
      getWalletM.getWalletFetch hasKey cc st now uid addr := by
  unfold getWalletM
  cases h : List.lookup (uid ++ ":" ++ addr) st.walletCache with
  | none => simp [h]
  | some entry => simp [h, jsLt, CACHE_DURATION]

/-- The first component (the returned value / thrown error) of the
fetch path depends only on the `users` collection, never on the cache. -/
theorem fetch_fst_users_congr (hasKey : Bool) (cc : CipherCore)
    (st1 st2 : WalletState) (now1 now2 : Nat) (uid addr : String)
    (h : st1.users = st2.users) :
    (getWalletM.getWalletFetch hasKey cc st1 now1 uid addr).1 =
      (getWalletM.getWalletFetch hasKey cc st2 now2 uid addr).1 := by
  unfold getWalletM.getWalletFetch
  rw [h]
  cases hu : List.lookup uid st2.users with
  | none => simp [hu]
  | some user =>
    simp only [hu]
    cases hf : findWalletIn addr user.wallets with
    | none => simp [hf]
    | some nw =>
      obtain ⟨network, w⟩ := nw
      simp only [hf]
      cases hpk : decryptM hasKey cc w.encryptedPrivateKey with
      | error e =>
        cases hmn : decryptM hasKey cc w.encryptedMnemonic with
        | error e2 => simp [hpk, hmn]
        | ok mn => simp [hpk, hmn]
      | ok pk =>
        cases hmn : decryptM hasKey cc w.encryptedMnemonic with
        | error e2 => simp [hpk, hmn]
        | ok mn => simp [hpk, hmn]

/-- Decryption of a ciphertext actually produced by `encrypt` recovers
the plaintext. -/
theorem decrypt_of_encrypt (cc : CipherCore) (hwf : cc.WF) (salt t : List Nat)
    (oc : Option Ct) (henc : encryptM true cc salt (some t) = .ok oc)
    (hne : t ≠ []) (hutf : validUtf8 t = true) :
    decryptM true cc oc = .ok (some t) := by
  have hr := decryptM_encryptM cc hwf salt t hne hutf
  unfold roundtripM at hr
  rw [henc] at hr
  simpa [Except.bind] using hr

/-- The 16 sixteens, decrypted under the identity core: all zero IV,
identity block map, so the "decrypted" bytes are the block itself; the
(unvalidated) unpad then reads the final byte 16 and drops everything,
yielding the empty string, which stringifies without error. -/
theorem garbageCt_not_encrypt_output (salt t : List Nat)
    (hne : t ≠ []) (hutf : validUtf8 t = true) :
    encryptM true idCore salt (some t) ≠
      .ok (some ⟨[], [List.replicate 16 16]⟩) := by
  intro h
  have hr := decrypt_of_encrypt idCore idCore_wf salt t _ h hne hutf
  have hg : decryptM true idCore (some ⟨[], [List.replicate 16 16]⟩) =
      .ok (some []) := rfl
  rw [hg] at hr
  apply hne
  injection hr with h1
  injection h1 with h2
  exact h2.symm

/-! ### Claim theorems -/

/-- Model of `getWallet` on a record it can locate and decrypt returns the
decrypted wallet tagged with the network it was found under. -/
theorem getWallet_found (hasKey : Bool) (cc : CipherCore) (st : WalletState)
    (now : Nat) (uid addr : String) (u : UserRec) (net : String)
    (w : StoredWallet) (pk mn : Option (List Nat))
    (hu : List.lookup uid st.users = some u)
    (hf : findWalletIn addr u.wallets = some (net, w))
    (hpk : decryptM hasKey cc w.encryptedPrivateKey = .ok pk)
    (hmn : decryptM hasKey cc w.encryptedMnemonic = .ok mn) :
    (getWalletM hasKey cc st now uid addr).1 =
      .ok (some ⟨w.address, pk, mn, net, w.wType.getD "internal", w.createdAt⟩) := by
  rw [getWalletM_eq_fetch]
  unfold getWalletM.getWalletFetch
  simp [hu, hf, hpk, hmn]

/-- C1: `createWallet(userId, network)` on a registered network
persists the encrypted record and returns the provider's plaintext
wallet, emitting `walletCreated`; an immediate `getWallet(userId,
address)` finds that record (for a fresh address), reports the same
address and network, and the decrypted private key and mnemonic equal
the ones `createWallet` returned — the encrypt → persist → fetch →
decrypt round-trip is unchanged.  The non-emptiness and UTF-8
hypotheses hold for every wallet a provider generates (hex-encoded
secret key, BIP-39 mnemonic). -/
theorem c1_create_then_get (cc : CipherCore) (hwf : cc.WF) (st : WalletState)
    (salt1 salt2 : List Nat) (now now2 : Nat) (uid network : String)
    (pw : ProviderWallet)
    (hnet : network ∈ st.walletProviders)
    (hpk_ne : pw.privateKey ≠ []) (hpk_utf : validUtf8 pw.privateKey = true)
    (hmn_ne : pw.mnemonic ≠ []) (hmn_utf : validUtf8 pw.mnemonic = true)
    (hfresh : ∀ p ∈ priorWallets st.users uid, ∀ w ∈ p.2, w.address ≠ pw.address) :
    ∃ st' evs,
      createWalletM true cc st salt1 salt2 now uid network pw = (.ok pw, st', evs) ∧
      WEvent.walletCreated uid network pw.address ∈ evs ∧
      ∃ dw, (getWalletM true cc st' now2 uid pw.address).1 = .ok (some dw) ∧
        dw.address = pw.address ∧ dw.network = network ∧
        dw.privateKey = some pw.privateKey ∧ dw.mnemonic = some pw.mnemonic := by
  obtain ⟨c1, henc1⟩ : ∃ c1, encryptM true cc salt1 (some pw.privateKey) =
      .ok (some c1) :=
    ⟨⟨salt1, cbcEnc (cc.encBlock salt1) (cc.deriveIV salt1)
        (chunk16 (pkcs7pad pw.privateKey))⟩, by simp [encryptM, hpk_ne]⟩
  obtain ⟨c2, henc2⟩ : ∃ c2, encryptM true cc salt2 (some pw.mnemonic) =
      .ok (some c2) :=
    ⟨⟨salt2, cbcEnc (cc.encBlock salt2) (cc.deriveIV salt2)
        (chunk16 (pkcs7pad pw.mnemonic))⟩, by simp [encryptM, hmn_ne]⟩
  have hdec1 : decryptM true cc (some c1) = .ok (some pw.privateKey) :=
    decrypt_of_encrypt cc hwf salt1 _ _ henc1 hpk_ne hpk_utf
  have hdec2 : decryptM true cc (some c2) = .ok (some pw.mnemonic) :=
    decrypt_of_encrypt cc hwf salt2 _ _ henc2 hmn_ne hmn_utf
  unfold createWalletM
  rw [if_pos hnet]
  simp only [henc1, henc2]
  refine ⟨_, _, rfl, by simp [incrementWalletTally], ?_⟩
  have hu := lookup_upsertPush st.users uid network
    ⟨pw.address, some c1, some c2, none, now⟩
  have hf := findWalletIn_push (priorWallets st.users uid) network pw.address
    ⟨pw.address, some c1, some c2, none, now⟩ rfl hfresh
  exact ⟨_, getWallet_found true cc _ now2 uid pw.address _ network
    ⟨pw.address, some c1, some c2, none, now⟩ (some pw.privateKey)
    (some pw.mnemonic) hu hf hdec1 hdec2, rfl, rfl, rfl, rfl⟩

theorem c1_create_then_get_witness :
    "solana" ∈ (⟨[], [], [], ["solana"]⟩ : WalletState).walletProviders ∧
    ∃ st' evs,
      createWalletM true idCore ⟨[], [], [], ["solana"]⟩ [] [] 0 "7" "solana"
          ⟨"Addr1", [97], [98]⟩ =
        (.ok ⟨"Addr1", [97], [98]⟩, st', evs) ∧
      WEvent.walletCreated "7" "solana" "Addr1" ∈ evs ∧
      ∃ dw, (getWalletM true idCore st' 5 "7" "Addr1").1 = .ok (some dw) ∧
        dw.address = "Addr1" ∧ dw.network = "solana" ∧
        dw.privateKey = some [97] ∧ dw.mnemonic = some [98] :=
  ⟨by decide,
   c1_create_then_get idCore idCore_wf ⟨[], [], [], ["solana"]⟩ [] [] 0 5 "7"
     "solana" ⟨"Addr1", [97], [98]⟩ (by decide) (by decide) (by decide)
     (by decide) (by decide) (by simp [priorWallets, List.lookup])⟩

/-- C2, counterexample.  The claim asserts that `decrypt(encrypt(x)) = x`
for every non-null `x` and that `decrypt` of an invalid ciphertext
always fails.  Both parts fail on the code: (1) the empty string is
non-null but falsy, so `encrypt('')` returns `null` and the round-trip
yields `null`, not `''`; (2) the ciphertext `⟨[], [16×16]⟩` — which is
not the encryption of any accepted plaintext, by
`garbageCt_not_encrypt_output` — decrypts WITHOUT error to the empty
string, because the unvalidated CryptoJS unpad drops all 16 bytes and
the empty result is valid UTF-8. -/
theorem c2_decrypt_garbage_counterexample :
    roundtripM true idCore [] (some []) = .ok none ∧
    decryptM true idCore (some ⟨[], [List.replicate 16 16]⟩) = .ok (some []) :=
  ⟨rfl, rfl⟩

/-- C2 (amended): for every NON-EMPTY plaintext, `decrypt(encrypt(x))
= x`; `null` and the empty string pass through encryption as `null` and
round-trip to `null`; and decryption of an invalid ciphertext is NOT
guaranteed to fail — it can return the empty string with no error. -/
theorem c2_cipher_roundtrip (cc : CipherCore) (hwf : cc.WF) (salt t : List Nat)
    (hne : t ≠ []) (hutf : validUtf8 t = true) :
    roundtripM true cc salt (some t) = .ok (some t) ∧
    roundtripM true cc salt none = .ok none ∧
    roundtripM true cc salt (some []) = .ok none ∧
    decryptM true idCore (some ⟨[], [List.replicate 16 16]⟩) = .ok (some []) :=
  ⟨decryptM_encryptM cc hwf salt t hne hutf, rfl, rfl, rfl⟩

theorem c2_cipher_roundtrip_witness :
    ([104, 105] : List Nat) ≠ [] ∧ validUtf8 [104, 105] = true ∧
    roundtripM true idCore [] (some [104, 105]) = .ok (some [104, 105]) :=
  ⟨by decide, by decide,
   (c2_cipher_roundtrip idCore idCore_wf [] [104, 105] (by decide) (by decide)).1⟩

/-- C4, counterexample.  The claim asserts `getWallet` returns a
well-defined not-found result rather than raising an error when no user
with the given id exists; the code instead throws `'User not found'`
(`if (!user) throw new Error('User not found')`). -/
theorem c4_user_not_found_counterexample :
    (getWalletM true idCore ⟨[], [], [], ["ethereum"]⟩ 0 "1" "addr").1 =
      .error "User not found" := rfl

/-- C4 (amended): `getWallet` returns `null` (not an error) when the
user exists but owns no wallet with the given address, but THROWS
`'User not found'` when no user with that id exists; it yields a wallet
when decryption of the found record succeeds, and raises
`'Failed to decrypt wallet data'` exactly when decryption of a found
record fails. -/
theorem c4_getWallet_not_found (hasKey : Bool) (cc : CipherCore) (st : WalletState)
    (now : Nat) (uid addr : String) :
    (List.lookup uid st.users = none →
      (getWalletM hasKey cc st now uid addr).1 = .error "User not found") ∧
    (∀ u, List.lookup uid st.users = some u →
      findWalletIn addr u.wallets = none →
      (getWalletM hasKey cc st now uid addr).1 = .ok none) ∧
    (∀ u net w pk mn, List.lookup uid st.users = some u →
      findWalletIn addr u.wallets = some (net, w) →
      decryptM hasKey cc w.encryptedPrivateKey = .ok pk →
      decryptM hasKey cc w.encryptedMnemonic = .ok mn →
      (getWalletM hasKey cc st now uid addr).1 =
        .ok (some ⟨w.address, pk, mn, net, w.wType.getD "internal", w.createdAt⟩)) ∧
    (∀ u net w, List.lookup uid st.users = some u →
      findWalletIn addr u.wallets = some (net, w) →
      ((∃ e, decryptM hasKey cc w.encryptedPrivateKey = .error e) ∨
       (∃ e, decryptM hasKey cc w.encryptedMnemonic = .error e)) →
      (getWalletM hasKey cc st now uid addr).1 =
        .error "Failed to decrypt wallet data") := by
  refine ⟨?_, ?_, ?_, ?_⟩
  · intro h
    rw [getWalletM_eq_fetch]
    unfold getWalletM.getWalletFetch
    simp [h]
  · intro u hu hf
    rw [getWalletM_eq_fetch]
    unfold getWalletM.getWalletFetch
    simp [hu, hf]
  · intro u net w pk mn hu hf hpk hmn
    rw [getWalletM_eq_fetch]
    unfold getWalletM.getWalletFetch
    simp [hu, hf, hpk, hmn]
  · intro u net w hu hf herr
    rw [getWalletM_eq_fetch]
    unfold getWalletM.getWalletFetch
    rcases herr with ⟨e, he⟩ | ⟨e, he⟩
    · simp [hu, hf, he]
    · cases hpk : decryptM hasKey cc w.encryptedPrivateKey with
      | error e2 => simp [hu, hf, hpk]
      | ok pk => simp [hu, hf, hpk, he]

theorem c4_getWallet_not_found_witness :
    List.lookup "1" (⟨[("1", ⟨[]⟩)], [], [], []⟩ : WalletState).users =
      some ⟨[]⟩ ∧
    findWalletIn "a" (⟨[]⟩ : UserRec).wallets = none ∧
    (getWalletM true idCore ⟨[("1", ⟨[]⟩)], [], [], []⟩ 0 "1" "a").1 = .ok none :=
  ⟨rfl, rfl,
   (c4_getWallet_not_found true idCore ⟨[("1", ⟨[]⟩)], [], [], []⟩ 0 "1" "a").2.1
     ⟨[]⟩ rfl rfl⟩

/-- C8: a wallet previously placed in the cache is never served by
`getWallet`.  `cacheWallet` writes key `` `${userId}-${address}` `` with the
wallet under the `data` property, while `getWallet` reads key
`` `${userId}:${address}` `` and the `wallet` property under the undefined
`CACHE_DURATION`, whose TTL comparison is always false — so every
`getWallet` call that returns a wallet decrypts it from the persisted
record during that call: the result always equals the cache-free fetch,
and is unchanged by arbitrary `cacheWallet` writes. -/
theorem c8_cache_never_served (hasKey : Bool) (cc : CipherCore) (st : WalletState)
    (now tcache : Nat) (uid addr : String) (w : DecryptedWallet) :
    getWalletM hasKey cc st now uid addr =
      getWalletM.getWalletFetch hasKey cc st now uid addr ∧
    (getWalletM hasKey cc (cacheWalletF st uid addr w tcache) now uid addr).1 =
      (getWalletM hasKey cc st now uid addr).1 := by
  refine ⟨getWalletM_eq_fetch hasKey cc st now uid addr, ?_⟩
  rw [getWalletM_eq_fetch, getWalletM_eq_fetch]
  exact fetch_fst_users_congr hasKey cc _ st now now uid addr rfl

/-- C9: `getPendingTransactions(u)` returns exactly the recorded
transactions with `userId = u` and status `'pending'`; records settled
to `'complete'` or `'failed'` are excluded, though
`_updateTransactionStatus` keeps every settled record in the map (no
entry is removed by a status update). -/
theorem c9_pending_filter (st : QueueState) (userId : String) (tx : TxRecord) :
    (tx ∈ getPendingTransactions st userId ↔
      tx ∈ st.pendingTransactions.map Prod.snd ∧
        tx.userId = userId ∧ tx.status = "pending") ∧
    (∀ id status result e now,
      (List.lookup id (updateTransactionStatus st.pendingTransactions
          id status result e now)).isSome =
        (List.lookup id st.pendingTransactions).isSome) := by
  constructor
  · simp [getPendingTransactions, List.mem_filter, and_assoc]
  · intro id status result e now
    unfold updateTransactionStatus
    cases h : List.lookup id st.pendingTransactions with
    | none => simp [h]
    | some t => simp [h, lookup_mapSet_self]

/-- C10: `getQueueStatus` is total over arbitrary network strings: for
a network with no registered queue it returns pending 0, size 0 and
gasPrice `'unavailable'` (gas snapshots only ever exist for registered
networks, which the invariant hypothesis expresses), and the gasPrice
field is `'unavailable'` whenever no snapshot has been recorded. -/
theorem c10_queue_status_total (st : QueueState) (network : String) :
    ((List.lookup network st.queues = none ∧
      (∀ p ∈ st.gasPrices, (List.lookup p.1 st.queues).isSome)) →
      getQueueStatus st network = ⟨0, 0, .unavailable⟩) ∧
    (List.lookup network st.gasPrices = none →
      (getQueueStatus st network).gasPrice = .unavailable) := by
  constructor
  · rintro ⟨hq, hinv⟩
    have hg : List.lookup network st.gasPrices = none := by
      cases hgl : List.lookup network st.gasPrices with
      | none => rfl
      | some e =>
        have hm := hinv (network, e) (lookup_some_mem hgl)
        rw [hq] at hm
        simp at hm
    simp [getQueueStatus, hq, hg]
  · intro hg
    simp [getQueueStatus, hg]

/-- Any state reachable from the fresh queue keeps the number of
running tasks at or below the configured concurrency. -/
theorem pq_running_le_concurrency (c : Nat) (s : PQRun) (h : PQReachable c s) :
    s.running ≤ c := by
  induction h with
  | init => exact Nat.zero_le c
  | step _ hstep ih =>
    cases hstep with
    | enqueue => simpa using ih
    | start hlt _ => simpa using hlt
    | finish _ => simp; omega

/-- C3: every per-network queue built by `_initQueues` is configured
with `concurrency: 1`, `intervalCap: 1` and a positive minimum
inter-task interval (500 ms for solana, 1000 ms otherwise), and under
the `p-queue` admission semantics a concurrency-1 queue never has more
than one task in flight in any reachable state — even when
`addTransaction` enqueues concurrently, enqueues only grow the waiting
queue, never the running count. -/
theorem c3_single_flight (network : String) (q : PQConfig)
    (hq : (network, q) ∈ initQueues) :
    q.concurrency = 1 ∧ q.intervalCap = 1 ∧ 500 ≤ q.interval ∧
    ∀ s, PQReachable q.concurrency s → s.running ≤ 1 := by
  have hconf : q.concurrency = 1 ∧ q.intervalCap = 1 ∧ 500 ≤ q.interval := by
    simp [initQueues, networkInterval, NETWORK_INTERVALS, List.lookup] at hq
    rcases hq with ⟨_, hq⟩ | ⟨_, hq⟩ | ⟨_, hq⟩ <;> subst hq <;> simp
  refine ⟨hconf.1, hconf.2.1, hconf.2.2, fun s hs => ?_⟩
  have h := pq_running_le_concurrency q.concurrency s hs
  rw [hconf.1] at h
  exact h

theorem c3_single_flight_witness :
    ("solana", (⟨1, 500, 1, 0, 0⟩ : PQConfig)) ∈ initQueues ∧
    (⟨1, 0⟩ : PQRun).running ≤ 1 := by
  have hmem : ("solana", (⟨1, 500, 1, 0, 0⟩ : PQConfig)) ∈ initQueues := by
    simp [initQueues, networkInterval, NETWORK_INTERVALS, List.lookup]
  have r1 : PQReachable 1 ⟨0, 1⟩ := .step .init (.enqueue ⟨0, 0⟩)
  have r2 : PQReachable 1 ⟨1, 0⟩ := .step r1 (.start ⟨0, 1⟩ (by decide) (by decide))
  exact ⟨hmem,
    (c3_single_flight "solana" ⟨1, 500, 1, 0, 0⟩ hmem).2.2.2 ⟨1, 0⟩ r2⟩

/-- Settling a present record rewrites it in place. -/
theorem lookup_update_of_present (pend : List (String × TxRecord))
    (id status : String) (result errMsg : Option String) (now : Nat)
    (t : TxRecord) (h : List.lookup id pend = some t) :
    List.lookup id (updateTransactionStatus pend id status result errMsg now) =
      some { t with status := status, result := result, errorMsg := errMsg,
                    completedAt := some now } := by
  unfold updateTransactionStatus
  simp only [h]
  exact lookup_mapSet_self pend id _

/-- C5: once `addTransaction` accepts a transaction (validation
passes and the record is created as `pending`), every outcome of the
queued work leaves the record in a terminal state: `complete` on
success, and on ANY failure — including the queued task itself throwing
— the record is `failed`, carries the error message, and a
`transactionFailed` event is emitted; the record is never dropped
without reaching a terminal status. -/
theorem c5_failure_terminal (st : QueueState) (tx : TxIn)
    (run : Except String String) (now fin : Nat)
    (hvalid : validateTransaction st tx = .ok ()) :
    (∃ rec, List.lookup tx.id
        (addTransactionM st tx run now fin).2.1.pendingTransactions = some rec ∧
      (rec.status = "complete" ∨ rec.status = "failed")) ∧
    (∀ e, run = .error e →
      ∃ rec, List.lookup tx.id
          (addTransactionM st tx run now fin).2.1.pendingTransactions = some rec ∧
        rec.status = "failed" ∧ rec.errorMsg = some e ∧
        QEvent.transactionFailed tx.id ∈ (addTransactionM st tx run now fin).2.2) := by
  unfold addTransactionM
  simp only [hvalid]
  cases run with
  | ok r =>
    constructor
    · exact ⟨_, lookup_update_of_present _ _ _ _ _ _ _ (lookup_mapSet_self _ _ _),
        Or.inl rfl⟩
    · intro e he
      simp at he
  | error e0 =>
    constructor
    · exact ⟨_, lookup_update_of_present _ _ _ _ _ _ _ (lookup_mapSet_self _ _ _),
        Or.inr rfl⟩
    · intro e he
      have : e0 = e := by injection he
      subst this
      exact ⟨_, lookup_update_of_present _ _ _ _ _ _ _ (lookup_mapSet_self _ _ _),
        rfl, rfl, by simp⟩

theorem c5_failure_terminal_witness :
    validateTransaction ⟨initQueues, [], []⟩
        ⟨"tx1", "buy", "solana", "42", 0⟩ = .ok () ∧
    (∃ rec, List.lookup "tx1"
        (addTransactionM ⟨initQueues, [], []⟩ ⟨"tx1", "buy", "solana", "42", 0⟩
          (.error "Transaction processing failed: Insufficient balance for gas")
          5 9).2.1.pendingTransactions = some rec ∧
      rec.status = "failed") := by
  have hvalid : validateTransaction ⟨initQueues, [], []⟩
      ⟨"tx1", "buy", "solana", "42", 0⟩ = .ok () := by
    simp [validateTransaction, initQueues, networkInterval, NETWORK_INTERVALS,
      List.lookup]
  have h := (c5_failure_terminal ⟨initQueues, [], []⟩
    ⟨"tx1", "buy", "solana", "42", 0⟩
    (.error "Transaction processing failed: Insufficient balance for gas")
    5 9 hvalid).2 _ rfl
  obtain ⟨rec, hrec, hst, _, _⟩ := h
  exact ⟨hvalid, rec, hrec, hst⟩

theorem probeEndpoints_all_fail (probe : String → Except String Unit) :
    ∀ es : List String, (∀ x ∈ es, probe x ≠ .ok ()) →
    probeEndpoints probe es = .error "❌ All RPC connections failed." := by
  intro es
  induction es with
  | nil => intro _; rfl
  | cons e rest ih =>
    intro h
    unfold probeEndpoints
    cases hp : probe e with
    | ok u => exact absurd hp (by cases u; exact h e (List.mem_cons_self _ _))
    | error m => exact ih fun x hx => h x (List.mem_cons_of_mem _ hx)

theorem probeEndpoints_error_all (probe : String → Except String Unit) :
    ∀ (es : List String) (m : String), probeEndpoints probe es = .error m →
    ∀ x ∈ es, probe x ≠ .ok () := by
  intro es
  induction es with
  | nil => intro m _ x hx; simp at hx
  | cons e rest ih =>
    intro m herr x hx
    unfold probeEndpoints at herr
    cases hp : probe e with
    | ok u => rw [hp] at herr; simp at herr
    | error m2 =>
      rw [hp] at herr
      rcases List.mem_cons.mp hx with hx | hx
      · subst hx; rw [hp]; simp
      · exact ih m herr x hx

theorem probeEndpoints_first (probe : String → Except String Unit)
    (pre post : List String) (e : String)
    (hpre : ∀ x ∈ pre, probe x ≠ .ok ()) (he : probe e = .ok ()) :
    probeEndpoints probe (pre ++ e :: post) = .ok e := by
  induction pre with
  | nil =>
    simp only [List.nil_append]
    unfold probeEndpoints
    rw [he]
  | cons x xs ih =>
    simp only [List.cons_append]
    unfold probeEndpoints
    cases hp : probe x with
    | ok u => exact absurd hp (by cases u; exact hpre x (List.mem_cons_self _ _))
    | error m => exact ih fun y hy => hpre y (List.mem_cons_of_mem _ hy)

/-- C6: `setupRpcConnection` probes the endpoints in primary-then-
fallback order and adopts the first endpoint whose `getVersion` probe
(under the 5000 ms `rpcRequest` timeout) answers: with every earlier
endpoint failing, the loop returns that endpoint and stores it in
`state.rpcEndpoint`, the target of every subsequent `rpcRequest`; it
throws `'❌ All RPC connections failed.'` exactly when every endpoint in
the list fails; and a failing health-check tick (including the
unconditional `TypeError` from the null `connection`) re-runs the same
failover probe. -/
theorem c6_rpc_failover (st : SolState) (probe : String → Except String Unit)
    (pre post : List String) (e : String)
    (hpre : ∀ x ∈ pre, probe x ≠ .ok ()) (he : probe e = .ok ()) :
    probeEndpoints probe (pre ++ e :: post) = .ok e ∧
    (∀ es : List String,
      probeEndpoints probe es = .error "❌ All RPC connections failed." ↔
        ∀ x ∈ es, probe x ≠ .ok ()) ∧
    (rpcEndpointList = pre ++ e :: post →
      (setupRpcConnectionM st probe).1 = .ok () ∧
      rpcCallTarget (setupRpcConnectionM st probe).2 = some e) ∧
    (∀ m, healthCheckTick st probe (.error m) = (setupRpcConnectionM st probe).2) ∧
    (st.connection = none →
      ∀ h, healthCheckTick st probe h = (setupRpcConnectionM st probe).2) := by
  refine ⟨probeEndpoints_first probe pre post e hpre he, ?_, ?_, ?_, ?_⟩
  · intro es
    exact ⟨probeEndpoints_error_all probe es _, probeEndpoints_all_fail probe es⟩
  · intro hlist
    have hsetup : probeEndpoints probe rpcEndpointList = .ok e := by
      rw [hlist]; exact probeEndpoints_first probe pre post e hpre he
    unfold setupRpcConnectionM
    simp [hsetup, rpcCallTarget]
  · intro m
    unfold healthCheckTick
    cases st.connection <;> rfl
  · intro hconn h
    unfold healthCheckTick
    rw [hconn]

/-- The probe of the spec scenario: the primary endpoint fails, the
fallback endpoint answers. -/
def probeScenario : String → Except String Unit :=
  fun s =>
    if s = "https://solana-mainnet-fallback.example.com" then .ok ()
    else .error "RPC Request Error: timeout of 5000ms exceeded"

theorem c6_rpc_failover_witness :
    (∀ x ∈ RPC_ENDPOINTS_primary, probeScenario x ≠ .ok ()) ∧
    probeScenario "https://solana-mainnet-fallback.example.com" = .ok () ∧
    (setupRpcConnectionM ⟨none, none⟩ probeScenario).1 = .ok () ∧
    rpcCallTarget (setupRpcConnectionM ⟨none, none⟩ probeScenario).2 =
      some "https://solana-mainnet-fallback.example.com" := by
  have hpre : ∀ x ∈ RPC_ENDPOINTS_primary, probeScenario x ≠ .ok () := by
    intro x hx
    simp [RPC_ENDPOINTS_primary] at hx
    subst hx
    simp [probeScenario]
  have he : probeScenario "https://solana-mainnet-fallback.example.com" = .ok () := by
    simp [probeScenario]
  have h := c6_rpc_failover ⟨none, none⟩ probeScenario RPC_ENDPOINTS_primary []
    "https://solana-mainnet-fallback.example.com" hpre he
  exact ⟨hpre, he, (h.2.2.1 rfl).1, (h.2.2.1 rfl).2⟩

/-- The open socket handle used to instantiate the WebSocket claims. -/
def openHandle : WsHandle := ⟨1⟩

/-- C7, counterexample.  The claim asserts the heartbeat timer
"repeatedly sends a ping ... for as long as the session stays open".
In the code `heartbeat()` arms a one-shot `setTimeout` (60 000 ms) and
its callback never re-arms it: after the single ping fires, the socket
is still stored and open but no heartbeat timer remains, so no further
ping can ever be sent without a new `open` event. -/
theorem c7_heartbeat_oneshot_counterexample :
    (wsOnOpen wsInit openHandle).wsReady = true ∧
    (wsOnOpen wsInit openHandle).pingTimer = some 60000 ∧
    (heartbeatFire (wsOnOpen wsInit openHandle)).2 = [.pingSent] ∧
    (heartbeatFire (wsOnOpen wsInit openHandle)).1.webSocket = some openHandle ∧
    (heartbeatFire (wsOnOpen wsInit openHandle)).1.pingTimer = none :=
  ⟨rfl, rfl, rfl, rfl, rfl⟩

/-- C7 (amended): on WebSocket open the session is marked ready and a
ONE-SHOT 60-second heartbeat timer is armed; when it fires with the
socket open it sends a single ping (measuring latency via the matching
pong) and does not re-arm itself — the heartbeat repeats only if a new
`open` event re-runs it; when the socket is absent or not open the
callback skips sending rather than throwing; on close a reconnect is
scheduled after a fixed 5-second backoff whose firing re-runs the full
setup. -/
theorem c7_ws_session (st : WsState) (ws : WsHandle) :
    ((wsOnOpen st ws).wsReady = true ∧
     (wsOnOpen st ws).pingTimer = some 60000) ∧
    (st.webSocket = some ws → ws.readyState = WS_OPEN →
      heartbeatFire st = ({ st with pingTimer := none }, [.pingSent])) ∧
    (st.webSocket = none →
      heartbeatFire st = ({ st with pingTimer := none }, [.heartbeatSkipped])) ∧
    (st.webSocket = some ws → ws.readyState ≠ WS_OPEN →
      heartbeatFire st = ({ st with pingTimer := none }, [.heartbeatSkipped])) ∧
    ((wsOnClose st).reconnectTimer = some 5000 ∧
      reconnectFire (wsOnClose st) =
        ({ st with reconnectTimer := none }, [.setupRerun])) := by
  refine ⟨⟨rfl, rfl⟩, ?_, ?_, ?_, rfl, rfl⟩
  · intro hws hopen
    unfold heartbeatFire
    rw [hws]
    simp [hopen]
  · intro hws
    unfold heartbeatFire
    rw [hws]
  · intro hws hopen
    unfold heartbeatFire
    rw [hws]
    simp [hopen]

theorem c7_ws_session_witness :
    (wsOnOpen wsInit openHandle).webSocket = some openHandle ∧
    openHandle.readyState = WS_OPEN ∧
    heartbeatFire (wsOnOpen wsInit openHandle) =
      ({ wsOnOpen wsInit openHandle with pingTimer := none }, [.pingSent]) :=
  ⟨rfl, rfl, (c7_ws_session (wsOnOpen wsInit openHandle) openHandle).2.1 rfl rfl⟩

theorem c10_queue_status_total_witness :
    (List.lookup "unknown" (⟨[], [], []⟩ : QueueState).queues = none ∧
      (∀ p ∈ (⟨[], [], []⟩ : QueueState).gasPrices,
        (List.lookup p.1 (⟨[], [], []⟩ : QueueState).queues).isSome)) ∧
    getQueueStatus ⟨[], [], []⟩ "unknown" = ⟨0, 0, .unavailable⟩ :=
  ⟨⟨rfl, by simp⟩,
   (c10_queue_status_total ⟨[], [], []⟩ "unknown").1 ⟨rfl, by simp⟩⟩

end Skin
